import Mathlib

/-!
Verification development for the truck-route optimizer (single-depot CVRP,
Clarke–Wright savings construction plus 2-opt refinement, `App.tsx`).

Modelling conventions:
* JavaScript floating-point numbers are modelled as exact rationals `ℚ`.
* The solver is parameterized by the distance function `d`, exactly as the
  source closes over `haversineKm`; the haversine formula itself is modelled
  over `ℝ` further below.
* The source precomputes `d0`/`dij` in records keyed by stop id and reads
  them back when building savings; with distinct stop ids (the documented
  input contract) those lookups return exactly the distances, which is how
  the savings are computed here.
* JavaScript exceptions (reading `.lat` of `undefined` after an
  out-of-bounds array access) are modelled with `Except String` /
  `Option`: `none` stands for `undefined`, `.error "TypeError"` for the
  thrown `TypeError`.
-/

structure Stop where
  id : String
  name : String
  lat : ℚ
  lng : ℚ
  demand : ℚ
  deriving DecidableEq

structure Depot where
  name : String
  lat : ℚ
  lng : ℚ
  deriving DecidableEq

structure Pt where
  lat : ℚ
  lng : ℚ
  deriving DecidableEq

def stopPt (s : Stop) : Pt := ⟨s.lat, s.lng⟩

def depotPt (p : Depot) : Pt := ⟨p.lat, p.lng⟩

/-- Working route during construction: `{ customers: Stop[]; load: number }`. -/
structure RouteW where
  customers : List Stop
  load : ℚ
  deriving DecidableEq

/-- Source `type Saving = { i: Stop; j: Stop; s: number }`. -/
structure Saving where
  i : Stop
  j : Stop
  s : ℚ
  deriving DecidableEq

/-- Source `interface RouteResult { route: Stop[]; distanceKm: number; load: number }`. -/
structure RouteResult where
  route : List Stop
  distanceKm : ℚ
  load : ℚ
  deriving DecidableEq

/-- All pairs `(i, j)` with `i` before `j`, in the source's generation order:
`i` iterating outer over the input list, `j` inner over the later elements. -/
def pairsOf : List Stop → List (Stop × Stop)
  | [] => []
  | a :: rest => rest.map (fun b => (a, b)) ++ pairsOf rest

/-- Savings `S(i,j) = d0(i) + d0(j) - d(i,j)` in generation order. -/
def savingsList (d : Pt → Pt → ℚ) (depot : Depot) (customers : List Stop) : List Saving :=
  (pairsOf customers).map fun p =>
    ⟨p.1, p.2,
      d (depotPt depot) (stopPt p.1) + d (depotPt depot) (stopPt p.2)
        - d (stopPt p.1) (stopPt p.2)⟩

/-- The order produced by `savings.sort((a, b) => b.s - a.s)`: descending in
`s`.  ECMAScript `Array.prototype.sort` is stable, and a stable sort by a
total preorder has a unique result, so it is modelled by insertion sort
below. -/
def savingsDesc (a b : Saving) : Prop := b.s ≤ a.s

instance : DecidableRel savingsDesc := fun a b => inferInstanceAs (Decidable (b.s ≤ a.s))

instance : IsTotal Saving savingsDesc := ⟨fun a b => le_total b.s a.s⟩

instance : IsTrans Saving savingsDesc := ⟨fun _ _ _ h1 h2 => le_trans h2 h1⟩

def sortedSavings (d : Pt → Pt → ℚ) (depot : Depot) (customers : List Stop) : List Saving :=
  List.insertionSort savingsDesc (savingsList d depot customers)

/-- Helper loop of `findRouteAndPos`: scan the route list from index `rIdx`
upward; `some (idx, some true)` means the stop heads route `idx`,
`some (idx, some false)` that it is that route's last element,
`some (idx, none)` that it sits strictly inside (JS `atStart: null`). -/
def findRPGo (stop : Stop) : Nat → List RouteW → Option (Nat × Option Bool)
  | _, [] => none
  | rIdx, r :: rest =>
    match r.customers with
    | [] => findRPGo stop (rIdx + 1) rest
    | c0 :: cs =>
      if c0.id = stop.id then some (rIdx, some true)
      else if ((c0 :: cs).getLast (List.cons_ne_nil c0 cs)).id = stop.id then
        some (rIdx, some false)
      else if (c0 :: cs).any (fun s => s.id = stop.id) then some (rIdx, none)
      else findRPGo stop (rIdx + 1) rest

def findRouteAndPos (routes : List RouteW) (stop : Stop) : Option (Nat × Option Bool) :=
  findRPGo stop 0 routes

/-- Default used to express the (always in-bounds) JS accesses
`routes[fi.rIdx]` / `routes[fj.rIdx]` totally. -/
def dfltRoute : RouteW := ⟨[], 0⟩

/-- One iteration of `for (const { i, j } of savings)`: locate both stops,
skip unless both are ends of distinct routes and the combined load fits,
otherwise orient (`left`/`right` reversal), concatenate, overwrite the route
holding `i` and splice out the route holding `j`.  Note the loop body reads
only `sv.i` and `sv.j`, never `sv.s`. -/
def mergeStep (capacity : ℚ) (routes : List RouteW) (sv : Saving) : List RouteW :=
  match findRouteAndPos routes sv.i, findRouteAndPos routes sv.j with
  | some fi, some fj =>
    if fi.1 = fj.1 then routes
    else
      match fi.2, fj.2 with
      | some ai, some aj =>
        let ri := routes.getD fi.1 dfltRoute
        let rj := routes.getD fj.1 dfltRoute
        let newLoad := ri.load + rj.load
        if capacity < newLoad then routes
        else
          let left := if ai then ri.customers.reverse else ri.customers
          let right := if aj then rj.customers else rj.customers.reverse
          (routes.set fi.1 ⟨left ++ right, newLoad⟩).eraseIdx fj.1
      | _, _ => routes
  | _, _ => routes

/-- The 2-opt acceptance tolerance `1e-9`. -/
def epsQ : ℚ := 1 / 1000000000

/-- The `node(idx)` helper of the source: `-1` and `best.length` denote the depot, an
index inside the array a stop, and anything else is JS `undefined`,
modelled as `none`. -/
def nodeAt (dep : Depot) (best : List Stop) (idx : Int) : Option Pt :=
  if idx = -1 then some (depotPt dep)
  else if idx = (best.length : Int) then some (depotPt dep)
  else if h : 0 ≤ idx ∧ idx < (best.length : Int) then
    some (stopPt (best.get ⟨idx.toNat, by omega⟩))
  else none

/-- Source `distWithDepot(a, b)`: `haversineKm(node a, node (a+1)) +
haversineKm(node b, node (b+1))`; accessing a field of `undefined` throws,
hence `none` propagates. -/
def distWithDepot (d : Pt → Pt → ℚ) (dep : Depot) (best : List Stop) (a b : Int) : Option ℚ := do
  let A ← nodeAt dep best a
  let B ← nodeAt dep best (a + 1)
  let C ← nodeAt dep best b
  let D ← nodeAt dep best (b + 1)
  pure (d A B + d C D)

/-- The quantity the source actually compares against:
`distWithDepot(i - 1, i) + distWithDepot(k, k + 1)`. -/
def beforeOf (d : Pt → Pt → ℚ) (dep : Depot) (best : List Stop) (i k : Nat) : Option ℚ := do
  let x ← distWithDepot d dep best ((i : Int) - 1) (i : Int)
  let y ← distWithDepot d dep best (k : Int) ((k : Int) + 1)
  pure (x + y)

/-- The candidate of the 2-opt move:
`best.slice(0, i).concat(best.slice(i, k + 1).reverse(), best.slice(k + 1))`. -/
def candidateOf (best : List Stop) (i k : Nat) : List Stop :=
  best.take i ++ ((best.drop i).take (k + 1 - i)).reverse ++ best.drop (k + 1)

/-- The quantity `after = haversineKm(node(i - 1), node(i)) + haversineKm(node(k), node(k + 1))`
evaluated on the candidate sequence. -/
def afterOf (d : Pt → Pt → ℚ) (dep : Depot) (cand : List Stop) (i k : Nat) : Option ℚ := do
  let A ← nodeAt dep cand ((i : Int) - 1)
  let B ← nodeAt dep cand (i : Int)
  let C ← nodeAt dep cand ((k : Int))
  let D ← nodeAt dep cand ((k : Int) + 1)
  pure (d A B + d C D)

/-- What the specification describes `before` to be: the two removed edges
`distance(node at i-1, node at i) + distance(node at k, node at k+1)` on the
current sequence (spec section 4.4).  Kept separate from `beforeOf`, which is
what the source computes, so the two can be compared. -/
def beforeSpecTwoEdge (d : Pt → Pt → ℚ) (dep : Depot) (best : List Stop) (i k : Nat) :
    Option ℚ := do
  let A ← nodeAt dep best ((i : Int) - 1)
  let B ← nodeAt dep best (i : Int)
  let C ← nodeAt dep best ((k : Int))
  let D ← nodeAt dep best ((k : Int) + 1)
  pure (d A B + d C D)

/-- Inner `for (let k = i + 1; k < best.length; k++)` loop; `cnt` counts the
remaining iterations (`best.length - k`; the candidate always has the same
length as `best`, so the bound is fixed). -/
def passK (d : Pt → Pt → ℚ) (dep : Depot) (i : Nat) :
    Nat → Nat → List Stop → Bool → Except String (List Stop × Bool)
  | 0, _, best, improved => .ok (best, improved)
  | cnt + 1, k, best, improved =>
    match beforeOf d dep best i k with
    | none => .error "TypeError"
    | some before =>
      let candidate := candidateOf best i k
      match afterOf d dep candidate i k with
      | none => .error "TypeError"
      | some after =>
        if after + epsQ < before then passK d dep i cnt (k + 1) candidate true
        else passK d dep i cnt (k + 1) best improved

/-- Outer `for (let i = 0; i < best.length - 1; i++)` loop. -/
def passI (d : Pt → Pt → ℚ) (dep : Depot) :
    Nat → Nat → List Stop → Bool → Except String (List Stop × Bool)
  | 0, _, best, improved => .ok (best, improved)
  | cnt + 1, i, best, improved =>
    match passK d dep i (best.length - (i + 1)) (i + 1) best improved with
    | .error e => .error e
    | .ok (best', improved') => passI d dep cnt (i + 1) best' improved'

/-- The `while (improved)` loop, with fuel.  For every sequence of length at
least 4 the very first pass raises (see `passI_error` below), so any
positive fuel produces the source's exact behaviour. -/
def twoOptLoop (d : Pt → Pt → ℚ) (dep : Depot) : Nat → List Stop → Except String (List Stop)
  | 0, _ => .error "fuel"
  | fuel + 1, best =>
    match passI d dep (best.length - 1) 0 best false with
    | .error e => .error e
    | .ok (best', improved) =>
      if improved then twoOptLoop d dep fuel best' else .ok best'

/-- Source `twoOpt(seq)`: sequences shorter than 4 are returned unchanged, the rest
enter the improvement loop. -/
def twoOpt (d : Pt → Pt → ℚ) (dep : Depot) (seq : List Stop) : Except String (List Stop) :=
  if seq.length < 4 then .ok seq
  else twoOptLoop d dep (seq.length + 1) seq

/-- Round-trip distance: depot, each stop in order, back to the depot. -/
def routeDistance (d : Pt → Pt → ℚ) (dep : Depot) (stops : List Stop) : ℚ :=
  let f := stops.foldl (fun (acc : ℚ × Pt) c => (acc.1 + d acc.2 (stopPt c), stopPt c))
    (0, depotPt dep)
  f.1 + d f.2 (depotPt dep)

/-- Body of `routes.map((r) => ...)`: run 2-opt, then compute distance and
emit the `RouteResult`. -/
def emitRoute (d : Pt → Pt → ℚ) (dep : Depot) (r : RouteW) : Except String RouteResult :=
  match twoOpt d dep r.customers with
  | .error e => .error e
  | .ok improved => .ok ⟨improved, routeDistance d dep improved, r.load⟩

/-- JS `Array.prototype.map` with a callback that can throw: the first
exception propagates. -/
def mapExcept (f : α → Except String β) : List α → Except String (List β)
  | [] => .ok []
  | a :: l =>
    match f a with
    | .error e => .error e
    | .ok b =>
      match mapExcept f l with
      | .error e => .error e
      | .ok bs => .ok (b :: bs)

/-- Ascending order of the final `results.sort((a, b) => a.distanceKm - b.distanceKm)`
(again a stable JS sort, modelled by insertion sort). -/
def resultLE (a b : RouteResult) : Prop := a.distanceKm ≤ b.distanceKm

instance : DecidableRel resultLE := fun a b => inferInstanceAs (Decidable (a.distanceKm ≤ b.distanceKm))

/-- Source `clarkeWright(depot, customers, capacity)`, parameterized by the
distance function `d` (the source closes over `haversineKm`). -/
def clarkeWright (d : Pt → Pt → ℚ) (depot : Depot) (customers : List Stop) (capacity : ℚ) :
    Except String (List RouteResult) :=
  if customers.length = 0 then .ok []
  else
    let routes0 : List RouteW := customers.map fun c => ⟨[c], c.demand⟩
    let merged := (sortedSavings d depot customers).foldl (mergeStep capacity) routes0
    match mapExcept (emitRoute d depot) merged with
    | .error e => .error e
    | .ok results => .ok (List.insertionSort resultLE results)

/-- Concatenation of all working routes' stop lists. -/
def joinRoutes : List RouteW → List Stop
  | [] => []
  | r :: t => r.customers ++ joinRoutes t

/-- Concatenation of all result routes' stop lists. -/
def joinResults : List RouteResult → List Stop
  | [] => []
  | r :: t => r.route ++ joinResults t

/-- Sum of the demands of a stop list. -/
def demSum (cs : List Stop) : ℚ := (cs.map Stop.demand).sum

/-- Invariant of every working route: nonempty, its load is the sum of its
members' demands, and if it was ever merged (length at least 2) the load
respects the capacity. -/
def RInv (cap : ℚ) (r : RouteW) : Prop :=
  r.customers ≠ [] ∧ r.load = demSum r.customers ∧ (2 ≤ r.customers.length → r.load ≤ cap)

/-! ### The haversine distance itself, over `ℝ` -/

structure PtR where
  lat : ℝ
  lng : ℝ

/-- Source `toRad(deg) = deg * Math.PI / 180`. -/
noncomputable def toRad (deg : ℝ) : ℝ := deg * Real.pi / 180

/-- The intermediate `h` of `haversineKm`. -/
noncomputable def havH (a b : PtR) : ℝ :=
  let dLat := toRad (b.lat - a.lat)
  let dLon := toRad (b.lng - a.lng)
  let lat1 := toRad a.lat
  let lat2 := toRad b.lat
  let sinDLat := Real.sin (dLat / 2)
  let sinDLon := Real.sin (dLon / 2)
  sinDLat * sinDLat + Real.cos lat1 * Real.cos lat2 * (sinDLon * sinDLon)

/-- Source `haversineKm`: `2 * R * Math.asin(Math.min(1, Math.sqrt(h)))`, `R = 6371`. -/
noncomputable def haversineKm (a b : PtR) : ℝ :=
  2 * 6371 * Real.arcsin (min 1 (Real.sqrt (havH a b)))

/-! ### CSV export / import (the import/export collaborator) -/

/-- JS strings as character lists. -/
abbrev Str := List Char

/-- Source `esc`: wrap in double quotes, doubling internal quotes. -/
def escCSV (s : Str) : Str :=
  '"' :: (s.flatMap fun c => if c = '"' then ['"', '"'] else [c]) ++ ['"']

/-- JS `String(n)` for a natural number. -/
def natToStr (n : Nat) : Str := (Nat.repr n).toList

/-- Decimal digits of the proper fraction `r / den`, up to `fuel` digits;
terminates early once the remainder is zero (JS prints no trailing zeros). -/
def fracDigitsN : Nat → Nat → Nat → Str
  | 0, _, _ => []
  | fuel + 1, r, den =>
    if r = 0 then []
    else Char.ofNat (48 + r * 10 / den) :: fracDigitsN fuel (r * 10 % den) den

/-- JS `String(x)` for a finite number, restricted to values with a
terminating decimal expansion (all values exercised in this file), where it
agrees with the ECMAScript shortest-roundtrip printing. -/
def numToString (q : ℚ) : Str :=
  (if q.num < 0 then ['-'] else []) ++ natToStr (q.num.natAbs / q.den) ++
    (if q.num.natAbs % q.den = 0 then [] else '.' :: fracDigitsN 20 (q.num.natAbs % q.den) q.den)

/-- JS `Array.prototype.join(sep)`. -/
def joinSep (sep : Str) : List Str → Str
  | [] => []
  | [a] => a
  | a :: b :: t => a ++ sep ++ joinSep sep (b :: t)

/-- The row `toCSV` builds for one stop at the `exportCSV` call site
(columns ID, Name, Lat, Lng, Demand; every field `esc`-quoted). -/
def stopRowCSV (s : Stop) : Str :=
  joinSep [','] [escCSV s.id.toList, escCSV s.name.toList,
    escCSV (numToString s.lat), escCSV (numToString s.lng), escCSV (numToString s.demand)]

/-- Source `toCSV(data, cols)` for the stops export:
`[header, body].filter(Boolean).join("\n")`; the header titles are not
escaped. -/
def stopsToCSV (stops : List Stop) : Str :=
  let header := "ID,Name,Lat,Lng,Demand".toList
  let body := joinSep ['\n'] (stops.map stopRowCSV)
  joinSep ['\n'] ([header, body].filter (fun x => x ≠ []))

/-- JS `text.split(/\r?\n/)`. -/
def splitLinesGo (acc : Str) : Str → List Str
  | [] => [acc.reverse]
  | '\r' :: '\n' :: rest => acc.reverse :: splitLinesGo [] rest
  | '\n' :: rest => acc.reverse :: splitLinesGo [] rest
  | c :: rest => splitLinesGo (c :: acc) rest

def splitLines (s : Str) : List Str := splitLinesGo [] s

/-- JS `line.split(/,|\t/)`. -/
def splitCTGo (acc : Str) : Str → List Str
  | [] => [acc.reverse]
  | ',' :: rest => acc.reverse :: splitCTGo [] rest
  | '\t' :: rest => acc.reverse :: splitCTGo [] rest
  | c :: rest => splitCTGo (c :: acc) rest

def splitCommaTab (s : Str) : List Str := splitCTGo [] s

def isWS (c : Char) : Bool := c == ' ' || c == '\t' || c == '\n' || c == '\r'

def trimStr (s : Str) : Str := ((s.dropWhile isWS).reverse.dropWhile isWS).reverse

def lowerStr (s : Str) : Str := s.map Char.toLower

/-- JS `findIndex`: `-1` when absent. -/
def idxOfCol (cols : List Str) (k : Str) : Int :=
  match cols.findIdx? (fun c => c == k) with
  | some n => (n : Int)
  | none => -1

/-- JS array indexing: out-of-range (including negative) is `undefined`. -/
def getAt (l : List Str) (n : Int) : Option Str :=
  if 0 ≤ n then l[n.toNat]? else none

def isDigitCh (c : Char) : Bool := '0' ≤ c && c ≤ '9'

def digitsToNat (acc : Nat) : Str → Nat
  | [] => acc
  | c :: rest => digitsToNat (acc * 10 + (c.toNat - 48)) rest

/-- Longest decimal-literal prefix: its value and the unconsumed rest;
`none` when the string has no numeric prefix (JS `NaN`).  Hex/`Infinity`
literal forms are not modelled (not exercised by the claims). -/
def parseDecimal (s : Str) : Option (ℚ × Str) :=
  let p1 : ℚ × Str :=
    match s with
    | '-' :: r => (-1, r)
    | '+' :: r => (1, r)
    | r => (1, r)
  let intPart := p1.2.takeWhile isDigitCh
  let s3 := p1.2.dropWhile isDigitCh
  let p2 : Str × Str :=
    match s3 with
    | '.' :: r => (r.takeWhile isDigitCh, r.dropWhile isDigitCh)
    | r => ([], r)
  if intPart = [] ∧ p2.1 = [] then none
  else
    let base : ℚ := (digitsToNat 0 intPart : ℚ) +
      (digitsToNat 0 p2.1 : ℚ) / (10 : ℚ) ^ p2.1.length
    match p2.2 with
    | c :: r =>
      if c = 'e' ∨ c = 'E' then
        let p3 : Int × Str :=
          match r with
          | '-' :: t => (-1, t)
          | '+' :: t => (1, t)
          | t => (1, t)
        let ds := p3.2.takeWhile isDigitCh
        if ds = [] then some (p1.1 * base, p2.2)
        else some (p1.1 * base * (10 : ℚ) ^ (p3.1 * (digitsToNat 0 ds : Int)),
          p3.2.dropWhile isDigitCh)
      else some (p1.1 * base, p2.2)
    | [] => some (p1.1 * base, p2.2)

/-- JS `parseFloat`: leading whitespace skipped, longest numeric prefix;
a non-finite result is collapsed to `none` since only finiteness is
consumed downstream. -/
def parseFloatJS (v : Option Str) : Option ℚ :=
  match v with
  | none => none
  | some s =>
    match parseDecimal (s.dropWhile isWS) with
    | some p => some p.1
    | none => none

/-- JS `Number(x)` for the string forms used here: trimmed, empty means 0,
otherwise the entire string must be one decimal literal. -/
def jsNumberJS (v : Option Str) : Option ℚ :=
  match v with
  | none => none
  | some s =>
    let t := trimStr s
    if t = [] then some 0
    else
      match parseDecimal t with
      | some (q, []) => some q
      | _ => none

/-- A row as `importCSV` builds it; `none` in a numeric field is JS `NaN`. -/
structure ParsedStop where
  id : Str
  name : Str
  lat : Option ℚ
  lng : Option ℚ
  demand : Option ℚ
  deriving DecidableEq

/-- JS `x || y` for a possibly-undefined string (`undefined` and `""` falsy). -/
def strOr (x : Option Str) (y : Str) : Str :=
  match x with
  | some s => if s = [] then y else s
  | none => y

/-- The `rest.map((line, i) => ...)` callback of `importCSV`. -/
def parseRowCSV (idIdx nameIdx latIdx lngIdx demIdx : Int) (i : Nat) (line : Str) :
    ParsedStop :=
  let parts := splitCommaTab line
  let idC : Option Str := if 0 ≤ idIdx then getAt parts idIdx else some [Char.ofNat (65 + i)]
  { id := strOr idC [Char.ofNat (65 + i)]
    name := strOr (getAt parts nameIdx) ("Stop ".toList ++ strOr idC (natToStr (i + 1)))
    lat := parseFloatJS (getAt parts latIdx)
    lng := parseFloatJS (getAt parts lngIdx)
    demand := if 0 ≤ demIdx then jsNumberJS (getAt parts demIdx) else some 1 }

/-- Source `importCSV(text)` including the final `filter(Number.isFinite ...)` the
source applies before storing; an empty line list would make the JS
destructuring call a method of `undefined`, i.e. throw. -/
def importCSV (text : Str) : Except String (List ParsedStop) :=
  match (splitLines text).filter (fun l => l ≠ []) with
  | [] => .error "TypeError"
  | header :: rest =>
    let cols := (splitCommaTab header).map (fun h => lowerStr (trimStr h))
    let idIdx := idxOfCol cols ("id".toList)
    let nameIdx := idxOfCol cols ("name".toList)
    let latIdx := idxOfCol cols ("lat".toList)
    let lngIdx := idxOfCol cols ("lng".toList)
    let demIdx := idxOfCol cols ("demand".toList)
    let parsed := rest.enum.map fun p => parseRowCSV idIdx nameIdx latIdx lngIdx demIdx p.1 p.2
    .ok (parsed.filter fun s => s.lat.isSome && s.lng.isSome)

/-! ### Concrete instances used in the theorems below -/

deriving instance DecidableEq for Except


/-- Symmetric stand-in distance for concrete runs (the merge phase treats
the distance function abstractly; only the savings order matters, see C10). -/
def taxi (p q : Pt) : ℚ :=
  (if p.lat ≤ q.lat then q.lat - p.lat else p.lat - q.lat) +
    (if p.lng ≤ q.lng then q.lng - p.lng else p.lng - q.lng)

def depotEx : Depot := ⟨"D", 0, 0⟩

def st1 : Stop := ⟨"1", "1", 1, 0, 1⟩
def st2 : Stop := ⟨"2", "2", 2, 0, 1⟩
def st3 : Stop := ⟨"3", "3", 3, 0, 1⟩
def st4 : Stop := ⟨"4", "4", 4, 0, 1⟩

/-- Four stops in a line, total demand 4: with capacity 100 Clarke–Wright
merges them into a single 4-stop route. -/
def stops4 : List Stop := [st1, st2, st3, st4]

def pk1 : Stop := ⟨"1", "1", 0, 1/10, 2⟩
def pk2 : Stop := ⟨"2", "2", 0, 1/5, 2⟩
def pk3 : Stop := ⟨"3", "3", 0, 3/10, 2⟩

/-- The capacity-splitting scenario of the source's self-test: three stops
of demand 2, capacity 4. -/
def picksEx : List Stop := [pk1, pk2, pk3]

/-- The solver's output on `picksEx` with capacity 4. -/
def rsEx : List RouteResult := [⟨[pk1], 1/5, 2⟩, ⟨[pk2, pk3], 3/5, 4⟩]

/-- Stop list for the CSV round-trip counterexample. -/
def csvStop : Stop := ⟨"A", "N", 1, 2, 3⟩

/-! ## Lemmas about `twoOpt` -/

theorem nodeAt_neg_one (dep : Depot) (best : List Stop) :
    nodeAt dep best (-1) = some (depotPt dep) := by
  unfold nodeAt
  rw [if_pos rfl]

theorem nodeAt_some (dep : Depot) (best : List Stop) (idx : Int) (h1 : -1 ≤ idx)
    (h2 : idx ≤ (best.length : Int)) : ∃ p, nodeAt dep best idx = some p := by
  unfold nodeAt
  by_cases h : idx = -1
  · exact ⟨_, by rw [if_pos h]⟩
  · by_cases h' : idx = (best.length : Int)
    · exact ⟨_, by rw [if_neg h, if_pos h']⟩
    · exact ⟨_, by rw [if_neg h, if_neg h', dif_pos (by omega)]⟩

theorem nodeAt_oob (dep : Depot) (best : List Stop) (idx : Int)
    (h : (best.length : Int) < idx) : nodeAt dep best idx = none := by
  unfold nodeAt
  rw [if_neg (by omega), if_neg (by omega), dif_neg (by omega)]

theorem dWD_some (d : Pt → Pt → ℚ) (dep : Depot) (best : List Stop) (a b : Int)
    (ha : -1 ≤ a) (ha2 : a + 1 ≤ (best.length : Int)) (hb : -1 ≤ b)
    (hb2 : b + 1 ≤ (best.length : Int)) : ∃ q, distWithDepot d dep best a b = some q := by
  obtain ⟨A, hA⟩ := nodeAt_some dep best a ha (by omega)
  obtain ⟨B, hB⟩ := nodeAt_some dep best (a + 1) (by omega) ha2
  obtain ⟨C, hC⟩ := nodeAt_some dep best b hb (by omega)
  obtain ⟨D, hD⟩ := nodeAt_some dep best (b + 1) (by omega) hb2
  exact ⟨d A B + d C D, by simp [distWithDepot, hA, hB, hC, hD]⟩

theorem dWD_none (d : Pt → Pt → ℚ) (dep : Depot) (best : List Stop) (a b : Int)
    (ha : -1 ≤ a) (ha2 : a + 1 ≤ (best.length : Int)) (hb : -1 ≤ b)
    (hb3 : b ≤ (best.length : Int)) (h : (best.length : Int) < b + 1) :
    distWithDepot d dep best a b = none := by
  obtain ⟨A, hA⟩ := nodeAt_some dep best a ha (by omega)
  obtain ⟨B, hB⟩ := nodeAt_some dep best (a + 1) (by omega) ha2
  obtain ⟨C, hC⟩ := nodeAt_some dep best b hb hb3
  have hD : nodeAt dep best (b + 1) = none := nodeAt_oob dep best (b + 1) (by omega)
  simp [distWithDepot, hA, hB, hC, hD]

theorem beforeOf_some (d : Pt → Pt → ℚ) (dep : Depot) (best : List Stop) (i k : Nat)
    (hi : i + 1 ≤ best.length) (hk : k + 2 ≤ best.length) :
    ∃ q, beforeOf d dep best i k = some q := by
  obtain ⟨x, hx⟩ := dWD_some d dep best ((i : Int) - 1) i (by omega) (by omega) (by omega)
    (by omega)
  obtain ⟨y, hy⟩ := dWD_some d dep best k ((k : Int) + 1) (by omega) (by omega) (by omega)
    (by omega)
  exact ⟨x + y, by simp [beforeOf, hx, hy]⟩

theorem beforeOf_none_last (d : Pt → Pt → ℚ) (dep : Depot) (best : List Stop) (k : Nat)
    (h4 : 4 ≤ best.length) (hk : k + 1 = best.length) : beforeOf d dep best 0 k = none := by
  obtain ⟨x, hx⟩ := dWD_some d dep best ((0 : Int) - 1) 0 (by omega) (by omega) (by omega)
    (by omega)
  have hy : distWithDepot d dep best k ((k : Int) + 1) = none :=
    dWD_none d dep best k ((k : Int) + 1) (by omega) (by omega) (by omega) (by omega) (by omega)
  simp [beforeOf, hx, hy]

theorem afterOf_some (d : Pt → Pt → ℚ) (dep : Depot) (cand : List Stop) (i k : Nat)
    (hi : i ≤ cand.length) (hk : k + 1 ≤ cand.length) :
    ∃ q, afterOf d dep cand i k = some q := by
  obtain ⟨A, hA⟩ := nodeAt_some dep cand ((i : Int) - 1) (by omega) (by omega)
  obtain ⟨B, hB⟩ := nodeAt_some dep cand i (by omega) (by omega)
  obtain ⟨C, hC⟩ := nodeAt_some dep cand k (by omega) (by omega)
  obtain ⟨D, hD⟩ := nodeAt_some dep cand ((k : Int) + 1) (by omega) (by omega)
  exact ⟨d A B + d C D, by simp [afterOf, hA, hB, hC, hD]⟩

theorem candidateOf_length (best : List Stop) (i k : Nat) (hik : i ≤ k + 1)
    (hk : k + 1 ≤ best.length) : (candidateOf best i k).length = best.length := by
  simp [candidateOf]
  omega

theorem passK_err (d : Pt → Pt → ℚ) (dep : Depot) :
    ∀ (cnt : Nat) (k : Nat) (best : List Stop) (imp : Bool), 4 ≤ best.length → 1 ≤ k →
      k + cnt = best.length → 1 ≤ cnt → passK d dep 0 cnt k best imp = .error "TypeError"
  | 0, _, _, _ => by intro _ _ _ h; omega
  | cnt + 1, k, best, imp => by
    intro h4 hk hsum _
    by_cases hc : cnt = 0
    · subst hc
      have hb : beforeOf d dep best 0 k = none :=
        beforeOf_none_last d dep best k h4 (by omega)
      simp only [passK, hb]
    · obtain ⟨bf, hbf⟩ := beforeOf_some d dep best 0 k (by omega) (by omega)
      have hcl : (candidateOf best 0 k).length = best.length :=
        candidateOf_length best 0 k (by omega) (by omega)
      obtain ⟨af, haf⟩ := afterOf_some d dep (candidateOf best 0 k) 0 k (by omega)
        (by omega)
      simp only [passK, hbf, haf]
      split
      · exact passK_err d dep cnt (k + 1) (candidateOf best 0 k) true (by omega) (by omega)
          (by omega) (by omega)
      · exact passK_err d dep cnt (k + 1) best imp h4 (by omega) (by omega) (by omega)

theorem passI_err (d : Pt → Pt → ℚ) (dep : Depot) (best : List Stop) (h4 : 4 ≤ best.length) :
    passI d dep (best.length - 1) 0 best false = .error "TypeError" := by
  obtain ⟨c, hc⟩ : ∃ c, best.length - 1 = c + 1 := ⟨best.length - 2, by omega⟩
  rw [hc]
  have hK : passK d dep 0 (best.length - (0 + 1)) (0 + 1) best false = .error "TypeError" :=
    passK_err d dep (best.length - 1) 1 best false h4 (by omega) (by omega) (by omega)
  simp only [passI, hK]

theorem twoOpt_err (d : Pt → Pt → ℚ) (dep : Depot) (seq : List Stop) (h4 : 4 ≤ seq.length) :
    twoOpt d dep seq = .error "TypeError" := by
  unfold twoOpt
  rw [if_neg (by omega)]
  simp only [twoOptLoop, passI_err d dep seq h4]

theorem twoOpt_lt4 (d : Pt → Pt → ℚ) (dep : Depot) (seq : List Stop) (h : seq.length < 4) :
    twoOpt d dep seq = .ok seq := by
  unfold twoOpt
  rw [if_pos h]

theorem twoOpt_ok_eq (d : Pt → Pt → ℚ) (dep : Depot) (seq out : List Stop)
    (h : twoOpt d dep seq = .ok out) : out = seq := by
  by_cases h4 : seq.length < 4
  · rw [twoOpt_lt4 d dep seq h4] at h
    exact (Except.ok.injEq _ _ ▸ h).symm
  · rw [twoOpt_err d dep seq (by omega)] at h
    exact absurd h (by simp)

/-! ## Lemmas about the merge phase -/

theorem findRPGo_lt (stop : Stop) :
    ∀ (l : List RouteW) (idx n : Nat) (p : Option Bool),
      findRPGo stop idx l = some (n, p) → n < idx + l.length := by
  intro l
  induction l with
  | nil => intro idx n p h; simp [findRPGo] at h
  | cons r rest ih =>
    intro idx n p h
    simp only [findRPGo] at h
    split at h
    · have := ih (idx + 1) n p h
      simp only [List.length_cons]
      omega
    · split at h
      · cases h
        simp only [List.length_cons]
        omega
      · split at h
        · cases h
          simp only [List.length_cons]
          omega
        · split at h
          · cases h
            simp only [List.length_cons]
            omega
          · have := ih (idx + 1) n p h
            simp only [List.length_cons]
            omega

theorem findRouteAndPos_lt (routes : List RouteW) (stop : Stop) (n : Nat) (ob : Option Bool)
    (h : findRouteAndPos routes stop = some (n, ob)) : n < routes.length := by
  have := findRPGo_lt stop routes 0 n ob h
  omega

theorem joinRoutes_eraseIdx :
    ∀ (l : List RouteW) (b : Nat), b < l.length →
      (joinRoutes l).Perm ((l.getD b dfltRoute).customers ++ joinRoutes (l.eraseIdx b))
  | [], b => by intro h; simp at h
  | r :: t, 0 => by intro _; simp [joinRoutes]
  | r :: t, b + 1 => by
    intro hb
    have ih := joinRoutes_eraseIdx t b (by simp only [List.length_cons] at hb; omega)
    simp only [joinRoutes, List.getD_cons_succ, List.eraseIdx_cons_succ]
    refine List.Perm.trans (ih.append_left r.customers) ?_
    rw [← List.append_assoc, ← List.append_assoc]
    exact List.perm_append_comm.append_right _

theorem joinRoutes_set :
    ∀ (l : List RouteW) (a : Nat) (x : RouteW), a < l.length →
      (joinRoutes (l.set a x)).Perm (x.customers ++ joinRoutes (l.eraseIdx a))
  | [], a, x => by intro h; simp at h
  | r :: t, 0, x => by intro _; simp [joinRoutes]
  | r :: t, a + 1, x => by
    intro ha
    have ih := joinRoutes_set t a x (by simp only [List.length_cons] at ha; omega)
    simp only [joinRoutes, List.set_cons_succ, List.eraseIdx_cons_succ]
    refine List.Perm.trans (ih.append_left r.customers) ?_
    rw [← List.append_assoc, ← List.append_assoc]
    exact List.perm_append_comm.append_right _

theorem mergeJoin :
    ∀ (l : List RouteW) (a b : Nat) (x : RouteW), a < l.length → b < l.length → a ≠ b →
      x.customers.Perm ((l.getD a dfltRoute).customers ++ (l.getD b dfltRoute).customers) →
      (joinRoutes ((l.set a x).eraseIdx b)).Perm (joinRoutes l)
  | [], a, b, x => by intro h; simp at h
  | r :: t, 0, 0, x => by intro _ _ hab; exact absurd rfl hab
  | r :: t, 0, k + 1, x => by
    intro _ hb _ hx
    have hk : k < t.length := by simp only [List.length_cons] at hb; omega
    simp only [List.set_cons_zero, List.eraseIdx_cons_succ, joinRoutes,
      List.getD_cons_zero, List.getD_cons_succ] at hx ⊢
    refine List.Perm.trans (hx.append_right (joinRoutes (t.eraseIdx k))) ?_
    rw [List.append_assoc]
    exact ((joinRoutes_eraseIdx t k hk).symm).append_left r.customers
  | r :: t, m + 1, 0, x => by
    intro ha _ _ hx
    have hm : m < t.length := by simp only [List.length_cons] at ha; omega
    simp only [List.set_cons_succ, List.eraseIdx_cons_zero, joinRoutes,
      List.getD_cons_zero, List.getD_cons_succ] at hx ⊢
    refine List.Perm.trans (joinRoutes_set t m x hm) ?_
    refine List.Perm.trans (hx.append_right (joinRoutes (t.eraseIdx m))) ?_
    refine List.Perm.trans ((List.perm_append_comm).append_right (joinRoutes (t.eraseIdx m))) ?_
    rw [List.append_assoc]
    exact ((joinRoutes_eraseIdx t m hm).symm).append_left r.customers
  | r :: t, m + 1, k + 1, x => by
    intro ha hb hab hx
    have ih := mergeJoin t m k x (by simp only [List.length_cons] at ha; omega)
      (by simp only [List.length_cons] at hb; omega) (by omega)
      (by simpa only [List.getD_cons_succ] using hx)
    simp only [List.set_cons_succ, List.eraseIdx_cons_succ, joinRoutes]
    exact ih.append_left _

theorem mergeStep_cases (cap : ℚ) (routes : List RouteW) (sv : Saving) :
    mergeStep cap routes sv = routes ∨
    ∃ a b ai aj, findRouteAndPos routes sv.i = some (a, some ai) ∧
      findRouteAndPos routes sv.j = some (b, some aj) ∧ a ≠ b ∧
      ¬(cap < (routes.getD a dfltRoute).load + (routes.getD b dfltRoute).load) ∧
      mergeStep cap routes sv =
        (routes.set a
          ⟨(if ai then (routes.getD a dfltRoute).customers.reverse
              else (routes.getD a dfltRoute).customers) ++
            (if aj then (routes.getD b dfltRoute).customers
              else (routes.getD b dfltRoute).customers.reverse),
            (routes.getD a dfltRoute).load + (routes.getD b dfltRoute).load⟩).eraseIdx b := by
  unfold mergeStep
  split
  · rename_i fi fj heqi heqj
    split
    · exact Or.inl rfl
    · rename_i hne
      split
      · rename_i ai aj heq2i heq2j
        dsimp only
        split
        · exact Or.inl rfl
        · rename_i hcap
          refine Or.inr ⟨fi.1, fj.1, ai, aj, ?_, ?_, hne, hcap, rfl⟩
          · rw [heqi]
            exact congrArg some (Prod.ext rfl heq2i)
          · rw [heqj]
            exact congrArg some (Prod.ext rfl heq2j)
      · exact Or.inl rfl
  · exact Or.inl rfl

theorem mergeStep_join (cap : ℚ) (routes : List RouteW) (sv : Saving) :
    (joinRoutes (mergeStep cap routes sv)).Perm (joinRoutes routes) := by
  rcases mergeStep_cases cap routes sv with h | ⟨a, b, ai, aj, hi, hj, hab, _, h⟩
  · rw [h]
  · rw [h]
    refine mergeJoin routes a b _ (findRouteAndPos_lt routes sv.i a (some ai) hi)
      (findRouteAndPos_lt routes sv.j b (some aj) hj) hab ?_
    refine List.Perm.append ?_ ?_
    · cases ai <;> simp [List.reverse_perm]
    · cases aj <;> simp [List.reverse_perm]

theorem demSum_append (l1 l2 : List Stop) : demSum (l1 ++ l2) = demSum l1 + demSum l2 := by
  simp [demSum]

theorem demSum_reverse (l : List Stop) : demSum l.reverse = demSum l := by
  simp [demSum, List.sum_reverse]

theorem demSum_perm (l1 l2 : List Stop) (h : l1.Perm l2) : demSum l1 = demSum l2 :=
  (h.map Stop.demand).sum_eq

theorem mem_set_erase (l : List RouteW) (a b : Nat) (x r' : RouteW)
    (h : r' ∈ (l.set a x).eraseIdx b) : r' = x ∨ r' ∈ l := by
  have h1 : r' ∈ l.set a x := (List.eraseIdx_sublist _ b).subset h
  rcases List.mem_or_eq_of_mem_set h1 with h2 | h2
  · exact Or.inr h2
  · exact Or.inl h2

theorem getD_mem (l : List RouteW) (n : Nat) (h : n < l.length) :
    l.getD n dfltRoute ∈ l := by
  rw [List.getD_eq_getElem l dfltRoute h]
  exact List.getElem_mem h

theorem mergeStep_inv (cap : ℚ) (routes : List RouteW) (sv : Saving)
    (hinv : ∀ r ∈ routes, RInv cap r) : ∀ r ∈ mergeStep cap routes sv, RInv cap r := by
  rcases mergeStep_cases cap routes sv with h | ⟨a, b, ai, aj, hi, hj, _, hcap, h⟩
  · rw [h]; exact hinv
  · rw [h]
    intro r hr
    rcases mem_set_erase _ _ _ _ _ hr with rfl | hmem
    · have hAmem : routes.getD a dfltRoute ∈ routes :=
        getD_mem routes a (findRouteAndPos_lt routes sv.i a (some ai) hi)
      have hBmem : routes.getD b dfltRoute ∈ routes :=
        getD_mem routes b (findRouteAndPos_lt routes sv.j b (some aj) hj)
      obtain ⟨hAne, hAload, _⟩ := hinv _ hAmem
      obtain ⟨hBne, hBload, _⟩ := hinv _ hBmem
      refine ⟨?_, ?_, fun _ => le_of_not_lt hcap⟩
      · have hL : (if ai then (routes.getD a dfltRoute).customers.reverse
            else (routes.getD a dfltRoute).customers) ≠ [] := by
          cases ai
          · simpa using hAne
          · simpa using hAne
        simp only [ne_eq, List.append_eq_nil]
        exact fun hand => hL hand.1
      · have h1 : demSum (if ai then (routes.getD a dfltRoute).customers.reverse
            else (routes.getD a dfltRoute).customers) = demSum (routes.getD a dfltRoute).customers := by
          cases ai <;> simp [demSum_reverse]
        have h2 : demSum (if aj then (routes.getD b dfltRoute).customers
            else (routes.getD b dfltRoute).customers.reverse) = demSum (routes.getD b dfltRoute).customers := by
          cases aj <;> simp [demSum_reverse]
        simp only [demSum_append, h1, h2, hAload, hBload]
    · exact hinv r hmem

theorem foldl_merge_join (cap : ℚ) :
    ∀ (svs : List Saving) (routes : List RouteW),
      (joinRoutes (svs.foldl (mergeStep cap) routes)).Perm (joinRoutes routes)
  | [], routes => List.Perm.refl _
  | sv :: svs, routes => by
    simp only [List.foldl_cons]
    exact (foldl_merge_join cap svs (mergeStep cap routes sv)).trans
      (mergeStep_join cap routes sv)

theorem foldl_merge_inv (cap : ℚ) :
    ∀ (svs : List Saving) (routes : List RouteW), (∀ r ∈ routes, RInv cap r) →
      ∀ r ∈ svs.foldl (mergeStep cap) routes, RInv cap r
  | [], routes => fun h => h
  | sv :: svs, routes => by
    intro h
    simp only [List.foldl_cons]
    exact foldl_merge_inv cap svs (mergeStep cap routes sv) (mergeStep_inv cap routes sv h)

theorem joinRoutes_init (customers : List Stop) :
    joinRoutes (customers.map fun c => ⟨[c], c.demand⟩) = customers := by
  induction customers with
  | nil => rfl
  | cons c t ih => simp [joinRoutes, ih]

theorem init_inv (cap : ℚ) (customers : List Stop) :
    ∀ r ∈ customers.map (fun c => (⟨[c], c.demand⟩ : RouteW)), RInv cap r := by
  intro r hr
  simp only [List.mem_map] at hr
  obtain ⟨c, _, rfl⟩ := hr
  exact ⟨by simp, by simp [demSum], fun h => absurd h (by norm_num)⟩

/-! ## Lemmas about emission and the full pipeline -/

theorem mapExcept_ok {α β : Type} (f : α → Except String β) :
    ∀ (l : List α) (out : List β), mapExcept f l = .ok out →
      List.Forall₂ (fun a b => f a = .ok b) l out
  | [], out => by
    intro h
    simp only [mapExcept] at h
    cases h
    exact List.Forall₂.nil
  | a :: l, out => by
    intro h
    simp only [mapExcept] at h
    split at h
    · cases h
    · rename_i b hb
      split at h
      · cases h
      · rename_i bs hbs
        cases h
        exact List.Forall₂.cons hb (mapExcept_ok f l bs hbs)

theorem emit_ok (d : Pt → Pt → ℚ) (dep : Depot) (r : RouteW) (res : RouteResult)
    (h : emitRoute d dep r = .ok res) : res.route = r.customers ∧ res.load = r.load := by
  unfold emitRoute at h
  split at h
  · cases h
  · rename_i improved himp
    cases h
    have := twoOpt_ok_eq d dep r.customers improved himp
    subst this
    exact ⟨rfl, rfl⟩

theorem emit_all (d : Pt → Pt → ℚ) (dep : Depot) (l : List RouteW) (out : List RouteResult)
    (h : List.Forall₂ (fun r res => emitRoute d dep r = .ok res) l out) :
    joinResults out = joinRoutes l ∧ out.map RouteResult.load = l.map RouteW.load ∧
      ∀ res ∈ out, ∃ r ∈ l, res.route = r.customers ∧ res.load = r.load := by
  induction h with
  | nil => exact ⟨rfl, rfl, by simp⟩
  | cons hab htail ih =>
    rename_i r res l' out'
    obtain ⟨h1, h2⟩ := emit_ok d dep r res hab
    refine ⟨?_, ?_, ?_⟩
    · simp only [joinResults, joinRoutes, h1, ih.1]
    · simp only [List.map_cons, h2, ih.2.1]
    · intro x hx
      rcases List.mem_cons.mp hx with rfl | hx'
      · exact ⟨r, List.mem_cons_self r l', h1, h2⟩
      · obtain ⟨rr, hm, hh⟩ := ih.2.2 x hx'
        exact ⟨rr, List.mem_cons_of_mem r hm, hh⟩

theorem joinResults_perm (l1 l2 : List RouteResult) (h : l1.Perm l2) :
    (joinResults l1).Perm (joinResults l2) := by
  induction h with
  | nil => exact List.Perm.refl _
  | cons x _ ih =>
    simp only [joinResults]
    exact ih.append_left x.route
  | swap x y l =>
    simp only [joinResults]
    rw [← List.append_assoc, ← List.append_assoc]
    exact (List.perm_append_comm).append_right _
  | trans _ _ ih1 ih2 => exact ih1.trans ih2

theorem loads_sum (cap : ℚ) :
    ∀ (l : List RouteW), (∀ r ∈ l, RInv cap r) →
      (l.map RouteW.load).sum = demSum (joinRoutes l)
  | [] => by intro _; simp [joinRoutes, demSum]
  | r :: t => by
    intro h
    have hr := (h r (List.mem_cons_self r t)).2.1
    have ht := loads_sum cap t (fun x hx => h x (List.mem_cons_of_mem r hx))
    simp only [List.map_cons, List.sum_cons, joinRoutes, demSum_append, hr, ht]

theorem clarkeWright_ok (d : Pt → Pt → ℚ) (dep : Depot) (customers : List Stop) (cap : ℚ)
    (rs : List RouteResult) (h : clarkeWright d dep customers cap = .ok rs) :
    (joinResults rs).Perm customers ∧
      (∀ r ∈ rs, r.route ≠ [] ∧ r.load = demSum r.route ∧
        (2 ≤ r.route.length → r.load ≤ cap)) ∧
      (rs.map RouteResult.load).sum = demSum customers := by
  unfold clarkeWright at h
  by_cases hc : customers.length = 0
  · rw [if_pos hc] at h
    cases h
    have hnil : customers = [] := List.length_eq_zero.mp hc
    subst hnil
    exact ⟨List.Perm.refl _, by simp, by simp [joinResults, demSum]⟩
  · rw [if_neg hc] at h
    dsimp only at h
    split at h
    · cases h
    · rename_i results hres
      cases h
      have hperm : (List.insertionSort resultLE results).Perm results :=
        List.perm_insertionSort _ _
      have hfa := mapExcept_ok (emitRoute d dep) _ results hres
      obtain ⟨hjoin, hloads, hmem⟩ := emit_all d dep _ results hfa
      have hjm := foldl_merge_join cap (sortedSavings d dep customers)
        (customers.map fun c => ⟨[c], c.demand⟩)
      have hinvm := foldl_merge_inv cap (sortedSavings d dep customers)
        (customers.map fun c => ⟨[c], c.demand⟩) (init_inv cap customers)
      have hj0 : joinRoutes (customers.map fun c => ⟨[c], c.demand⟩) = customers :=
        joinRoutes_init customers
      refine ⟨?_, ?_, ?_⟩
      · have e1 := joinResults_perm _ _ hperm
        rw [hjoin] at e1
        refine e1.trans (hjm.trans ?_)
        rw [hj0]
      · intro r hr
        have hr' : r ∈ results := (hperm.mem_iff).mp hr
        obtain ⟨m, hmmem, hroute, hload⟩ := hmem r hr'
        obtain ⟨hne, hl, hcap2⟩ := hinvm m hmmem
        rw [hroute, hload]
        exact ⟨hne, hl, hcap2⟩
      · have s1 : ((List.insertionSort resultLE results).map RouteResult.load).sum
            = (results.map RouteResult.load).sum := (hperm.map _).sum_eq
        rw [s1, hloads, loads_sum cap _ hinvm]
        exact (demSum_perm _ _ hjm).trans (by rw [hj0])

/-! ## Stability of the savings sort -/

theorem filter_orderedInsert (v : ℚ) (a : Saving) :
    ∀ l : List Saving,
      (List.orderedInsert savingsDesc a l).filter (fun sv => sv.s = v) =
        if a.s = v then a :: l.filter (fun sv => sv.s = v)
        else l.filter (fun sv => sv.s = v)
  | [] => by
    by_cases h : a.s = v <;> simp [List.orderedInsert, h]
  | b :: l => by
    simp only [List.orderedInsert]
    by_cases hr : savingsDesc a b
    · rw [if_pos hr]
      by_cases h : a.s = v
      · simp [List.filter_cons, h]
      · simp [List.filter_cons, h]
    · rw [if_neg hr]
      have hlt : a.s < b.s := lt_of_not_le hr
      have ih := filter_orderedInsert v a l
      by_cases h : a.s = v
      · have hb : ¬(b.s = v) := by
          rw [← h]
          exact ne_of_gt hlt
        simp [List.filter_cons, hb, ih, h]
      · simp only [List.filter_cons, ih, h]
        by_cases hb : b.s = v <;> simp [hb, h]

theorem filter_insertionSort (v : ℚ) :
    ∀ l : List Saving,
      (List.insertionSort savingsDesc l).filter (fun sv => sv.s = v) =
        l.filter (fun sv => sv.s = v)
  | [] => rfl
  | a :: l => by
    simp only [List.insertionSort]
    rw [filter_orderedInsert]
    by_cases h : a.s = v
    · rw [if_pos h, filter_insertionSort v l]
      simp [List.filter_cons, h]
    · rw [if_neg h, filter_insertionSort v l]
      simp [List.filter_cons, h]

/-! ## The merge loop never reads the saving value -/

theorem mergeStep_pair_only (cap : ℚ) (routes : List RouteW) (sv sv' : Saving)
    (h1 : sv.i = sv'.i) (h2 : sv.j = sv'.j) :
    mergeStep cap routes sv = mergeStep cap routes sv' := by
  unfold mergeStep
  rw [h1, h2]

theorem foldl_pair_only (cap : ℚ) :
    ∀ (l1 l2 : List Saving) (routes : List RouteW),
      l1.map (fun sv => (sv.i, sv.j)) = l2.map (fun sv => (sv.i, sv.j)) →
      l1.foldl (mergeStep cap) routes = l2.foldl (mergeStep cap) routes
  | [], [], _ => fun _ => rfl
  | [], b :: l2, _ => by intro h; simp at h
  | a :: l1, [], _ => by intro h; simp at h
  | a :: l1, b :: l2, routes => by
    intro h
    simp only [List.map_cons, List.cons.injEq, Prod.mk.injEq] at h
    obtain ⟨⟨hi, hj⟩, htail⟩ := h
    simp only [List.foldl_cons]
    rw [mergeStep_pair_only cap routes a b hi hj]
    exact foldl_pair_only cap l1 l2 _ htail

theorem mergeStep_merges (cap : ℚ) (routes : List RouteW) (sv : Saving) (a b : Nat)
    (ai aj : Bool) (hi : findRouteAndPos routes sv.i = some (a, some ai))
    (hj : findRouteAndPos routes sv.j = some (b, some aj)) (hab : a ≠ b)
    (hload : (routes.getD a dfltRoute).load + (routes.getD b dfltRoute).load ≤ cap) :
    (mergeStep cap routes sv).length + 1 = routes.length := by
  have hblt : b < routes.length := findRouteAndPos_lt routes sv.j b (some aj) hj
  unfold mergeStep
  rw [hi, hj]
  dsimp only
  rw [if_neg hab, if_neg (not_lt.mpr hload)]
  rw [List.length_eraseIdx_of_lt (by simpa using hblt)]
  simp only [List.length_set]
  omega

/-! ## The haversine distance -/

theorem haversineKm_symm (a b : PtR) : haversineKm a b = haversineKm b a := by
  unfold haversineKm
  have h : havH a b = havH b a := by
    simp only [havH, toRad]
    have e1 : (b.lat - a.lat) * Real.pi / 180 / 2 = -((a.lat - b.lat) * Real.pi / 180 / 2) := by
      ring
    have e2 : (b.lng - a.lng) * Real.pi / 180 / 2 = -((a.lng - b.lng) * Real.pi / 180 / 2) := by
      ring
    rw [e1, e2, Real.sin_neg, Real.sin_neg]
    ring
  rw [h]

theorem haversineKm_self (a : PtR) : haversineKm a a = 0 := by
  have h : havH a a = 0 := by
    simp only [havH, toRad, sub_self, zero_mul, zero_div, Real.sin_zero]
    ring
  unfold haversineKm
  rw [h, Real.sqrt_zero]
  rw [show min (1 : ℝ) 0 = 0 from by norm_num]
  rw [Real.arcsin_zero, mul_zero]

theorem havH_clamp (a b : PtR) :
    -1 ≤ min 1 (Real.sqrt (havH a b)) ∧ min 1 (Real.sqrt (havH a b)) ≤ 1 :=
  ⟨le_min (by norm_num) (le_trans (by norm_num) (Real.sqrt_nonneg _)), min_le_left _ _⟩

/-!
## The claims

`Rat`'s arithmetic is `@[irreducible]` in the ambient library, which only
affects elaborator-side evaluation; restoring the default reducibility lets
`decide` evaluate the (computable) definitions above on concrete inputs.
-/

set_option allowUnsafeReducibility true in
attribute [semireducible] Rat.add Rat.mul Rat.sub Rat.neg Rat.div Rat.inv

set_option maxHeartbeats 2000000

/-- C1: what the 2-opt optimizer actually does, against the claim that every
accepted swap strictly decreases the round-trip distance and that the
optimizer never increases it and is idempotent: for every distance function
and depot, a route of fewer than 4 stops is returned unchanged (so no swap
is ever accepted on it), and on every route of at least 4 stops the
optimizer throws a `TypeError` (it reads `best[best.length + 1]`, which is
`undefined`, while computing `before` at `k = best.length - 1`) before
completing its first pass — it never returns an optimized route at all.
Moreover the acceptance test itself is wrong: on the concrete 4-stop route
the comparison at `(i, k) = (0, 2)` accepts its swap (`after + 1e-9 <
before`, comparing a two-edge `after` with a four-edge `before`), yet the
swap raises the round-trip distance from 8 to 12. -/
theorem c1_twoOpt_no_swap_or_crash :
    (∀ (d : Pt → Pt → ℚ) (dep : Depot) (seq : List Stop), seq.length < 4 →
      twoOpt d dep seq = .ok seq) ∧
    (∀ (d : Pt → Pt → ℚ) (dep : Depot) (seq : List Stop), 4 ≤ seq.length →
      twoOpt d dep seq = .error "TypeError") ∧
    (beforeOf taxi depotEx stops4 0 2 = some 7 ∧
      afterOf taxi depotEx (candidateOf stops4 0 2) 0 2 = some 6 ∧
      (6 : ℚ) + epsQ < 7 ∧
      routeDistance taxi depotEx stops4 = 8 ∧
      routeDistance taxi depotEx (candidateOf stops4 0 2) = 12) :=
  ⟨fun d dep seq h => twoOpt_lt4 d dep seq h, fun d dep seq h => twoOpt_err d dep seq h,
   by decide, by decide, by decide, by decide, by decide⟩

/-- Witness for C1 on concrete routes of length 3 and 4. -/
theorem c1_witness :
    twoOpt taxi depotEx [st1, st2, st3] = .ok [st1, st2, st3] ∧
    twoOpt taxi depotEx stops4 = .error "TypeError" :=
  ⟨c1_twoOpt_no_swap_or_crash.1 taxi depotEx [st1, st2, st3] (by decide),
   c1_twoOpt_no_swap_or_crash.2.1 taxi depotEx stops4 (by decide)⟩

/-- C2: the `before` the code compares against is not the claimed
two-removed-edge sum.  On the 4-stop route at `(i, k) = (0, 1)` the code
computes `4` (a four-edge sum, `distWithDepot(i-1, i) + distWithDepot(k, k+1)`)
while the two-edge quantity of the claim is `2`; at `(i, k) = (0, 3)` the
code's `before` reads past the end of the array (`undefined`, a thrown
`TypeError`, modelled `none`) while the claimed quantity is defined and
equals `5`. -/
theorem c2_before_mismatch :
    beforeOf taxi depotEx stops4 0 1 = some 4 ∧
    beforeSpecTwoEdge taxi depotEx stops4 0 1 = some 2 ∧
    beforeOf taxi depotEx stops4 0 3 = none ∧
    beforeSpecTwoEdge taxi depotEx stops4 0 3 = some 5 :=
  ⟨by decide, by decide, by decide, by decide⟩

/-- C3: the pipeline is not total.  On four collinear stops of demand 1 and
capacity 100 the merge phase builds one 4-stop route, whose 2-opt pass then
throws a `TypeError`, so the solver produces an error instead of a result. -/
theorem c3_solver_not_total :
    clarkeWright taxi depotEx stops4 100 = .error "TypeError" := by decide

/-- C4 counterexample: an input with pairwise-distinct stop ids on which the
solver produces no output at all (the 2-opt phase throws), so in particular
no output whose stop ids form the input id set exists for this input. -/
theorem c4_counterexample :
    (stops4.map Stop.id).Nodup ∧
    ¬ ∃ rs, clarkeWright taxi depotEx stops4 100 = .ok rs := by
  refine ⟨by decide, ?_⟩
  rintro ⟨rs, h⟩
  rw [show clarkeWright taxi depotEx stops4 100 = .error "TypeError" from by decide] at h
  cases h

/-- C4 (amended): for every input with pairwise-distinct stop ids **on which
the solver returns normally**, the stop ids across all output routes are a
permutation of the input ids and contain no duplicate — every input stop
appears in exactly one output route at exactly one position. -/
theorem c4_partition (d : Pt → Pt → ℚ) (dep : Depot) (customers : List Stop) (cap : ℚ)
    (rs : List RouteResult) (hids : (customers.map Stop.id).Nodup)
    (hok : clarkeWright d dep customers cap = .ok rs) :
    ((joinResults rs).map Stop.id).Perm (customers.map Stop.id) ∧
      ((joinResults rs).map Stop.id).Nodup := by
  have h := (clarkeWright_ok d dep customers cap rs hok).1
  have hp := h.map Stop.id
  exact ⟨hp, (hp.nodup_iff).mpr hids⟩

/-- Witness for C4 on the capacity-splitting example. -/
theorem c4_witness :
    ((joinResults rsEx).map Stop.id).Perm (picksEx.map Stop.id) ∧
      ((joinResults rsEx).map Stop.id).Nodup :=
  c4_partition taxi depotEx picksEx 4 rsEx (by decide) (by decide)

/-- C5: for every output the solver returns, a route of at least two stops
(equivalently: formed by at least one merge) has load at most the capacity,
and an output route whose load exceeds the capacity can only be a singleton
whose single stop's own demand exceeds the capacity. -/
theorem c5_capacity (d : Pt → Pt → ℚ) (dep : Depot) (customers : List Stop) (cap : ℚ)
    (rs : List RouteResult) (hok : clarkeWright d dep customers cap = .ok rs) :
    ∀ r ∈ rs, (2 ≤ r.route.length → r.load ≤ cap) ∧
      (cap < r.load → ∃ c, r.route = [c] ∧ cap < c.demand) := by
  intro r hr
  obtain ⟨-, hprops, -⟩ := clarkeWright_ok d dep customers cap rs hok
  obtain ⟨hne, hload, hcap⟩ := hprops r hr
  refine ⟨hcap, fun hover => ?_⟩
  have hpos : 0 < r.route.length := List.length_pos.mpr hne
  have hlt : r.route.length < 2 := by
    by_contra hge
    exact absurd (hcap (by omega)) (not_le.mpr hover)
  have h1 : r.route.length = 1 := by omega
  obtain ⟨c, hc⟩ := List.length_eq_one.mp h1
  refine ⟨c, hc, ?_⟩
  rw [hc] at hload
  have hd : r.load = c.demand := by simpa [demSum] using hload
  rw [← hd]
  exact hover

/-- Witness for C5: the merged route `[pk2, pk3]` of the capacity-splitting
example satisfies the capacity bound. -/
theorem c5_witness : (4 : ℚ) ≤ 4 :=
  (c5_capacity taxi depotEx picksEx 4 rsEx (by decide)
    ⟨[pk2, pk3], 3/5, 4⟩ (by decide)).1 (by decide)

/-- C6: every output route's reported load is the sum of its member stops'
demands, and the loads of all output routes sum to the total input demand. -/
theorem c6_load_conservation (d : Pt → Pt → ℚ) (dep : Depot) (customers : List Stop)
    (cap : ℚ) (rs : List RouteResult) (hok : clarkeWright d dep customers cap = .ok rs) :
    (∀ r ∈ rs, r.load = demSum r.route) ∧
      (rs.map RouteResult.load).sum = demSum customers := by
  obtain ⟨-, hprops, hsum⟩ := clarkeWright_ok d dep customers cap rs hok
  exact ⟨fun r hr => (hprops r hr).2.1, hsum⟩

/-- Witness for C6 on the capacity-splitting example. -/
theorem c6_witness : (rsEx.map RouteResult.load).sum = demSum picksEx :=
  (c6_load_conservation taxi depotEx picksEx 4 rsEx (by decide)).2

/-- C7: the CSV round trip does not recover the stops: exporting one stop
and re-importing the produced text yields the empty list, because the
importer never strips the double quotes the exporter adds, so every `lat`
field parses as `NaN` and the row is filtered out. -/
theorem c7_csv_roundtrip_empty :
    importCSV (stopsToCSV [csvStop]) = .ok [] ∧ [csvStop] ≠ [] :=
  ⟨by decide, by decide⟩

/-- C8: the savings sequence the merge phase iterates is a permutation of
the generated savings, sorted by descending `s`, and the sort is stable with
respect to generation order: for every saving value `v`, the entries with
`s = v` appear in exactly their generation order. -/
theorem c8_savings_sorted_stable (d : Pt → Pt → ℚ) (dep : Depot) (customers : List Stop) :
    (sortedSavings d dep customers).Perm (savingsList d dep customers) ∧
    (sortedSavings d dep customers).Sorted (fun a b => b.s ≤ a.s) ∧
    ∀ v : ℚ, (sortedSavings d dep customers).filter (fun sv => sv.s = v) =
      (savingsList d dep customers).filter (fun sv => sv.s = v) :=
  ⟨List.perm_insertionSort savingsDesc (savingsList d dep customers),
   List.sorted_insertionSort savingsDesc (savingsList d dep customers),
   fun v => filter_insertionSort v (savingsList d dep customers)⟩

/-- C9: the distance is symmetric, zero on coincident points, and the
argument handed to the arcsine, `min 1 (sqrt h)`, always lies in `[-1, 1]`,
so no domain error can occur. -/
theorem c9_distance_properties :
    (∀ a b : PtR, haversineKm a b = haversineKm b a) ∧
    (∀ a : PtR, haversineKm a a = 0) ∧
    (∀ a b : PtR, -1 ≤ min 1 (Real.sqrt (havH a b)) ∧
      min 1 (Real.sqrt (havH a b)) ≤ 1) :=
  ⟨haversineKm_symm, haversineKm_self, havH_clamp⟩

/-- C10: the merge phase never reads the numeric saving `s`: savings lists
that agree on the pairs (in order) produce identical route lists, and a
saving with negative `s` is still merged — the route count drops by one —
whenever both stops are ends of distinct routes and the combined load fits
the capacity. -/
theorem c10_merge_ignores_saving :
    (∀ (cap : ℚ) (l1 l2 : List Saving) (routes : List RouteW),
      l1.map (fun sv => (sv.i, sv.j)) = l2.map (fun sv => (sv.i, sv.j)) →
      l1.foldl (mergeStep cap) routes = l2.foldl (mergeStep cap) routes) ∧
    (∀ (cap : ℚ) (routes : List RouteW) (sv : Saving) (a b : Nat) (ai aj : Bool),
      sv.s < 0 →
      findRouteAndPos routes sv.i = some (a, some ai) →
      findRouteAndPos routes sv.j = some (b, some aj) → a ≠ b →
      (routes.getD a dfltRoute).load + (routes.getD b dfltRoute).load ≤ cap →
      (mergeStep cap routes sv).length + 1 = routes.length) :=
  ⟨fun cap l1 l2 routes h => foldl_pair_only cap l1 l2 routes h,
   fun cap routes sv a b ai aj _ hi hj hab hload =>
     mergeStep_merges cap routes sv a b ai aj hi hj hab hload⟩

/-- Witness for C10: replacing a saving's value changes nothing, and a
negative saving still merges two singleton routes. -/
theorem c10_witness :
    [Saving.mk st1 st2 5].foldl (mergeStep 100) [⟨[st1], 1⟩, ⟨[st2], 1⟩] =
      [Saving.mk st1 st2 (-7)].foldl (mergeStep 100) [⟨[st1], 1⟩, ⟨[st2], 1⟩] ∧
    (mergeStep 100 [⟨[st1], 1⟩, ⟨[st2], 1⟩] (Saving.mk st1 st2 (-7))).length + 1 = 2 :=
  ⟨c10_merge_ignores_saving.1 100 [Saving.mk st1 st2 5] [Saving.mk st1 st2 (-7)]
      [⟨[st1], 1⟩, ⟨[st2], 1⟩] (by decide),
   c10_merge_ignores_saving.2 100 [⟨[st1], 1⟩, ⟨[st2], 1⟩] (Saving.mk st1 st2 (-7)) 0 1
      true true (by decide) (by decide) (by decide) (by decide) (by decide)⟩
